import Mathlib

/-!
Verification of the `vector-http-sink-hbase` log-ingestion bridge
(`src/main.rs`) against its natural-language specification.

The source is a single-file axum service:

* `type Logs = Vec<BTreeMap<String, Box<RawValue>>>` — the decoded request
  body: a list of records, each a `BTreeMap` from field name to the raw
  serialized JSON bytes of the field's value.
* `put_logs` — the POST handler: it acquires a pooled connection, builds
  one `BatchMutation` per record (one `Mutation` per field, with
  `column(config.column_family, k)` and `value(v.get())`), then calls
  `conn.put(&config.table_name, row_batches, None, None)` and returns
  `StatusCode::CREATED`; every error is mapped by `internal_error` to
  `(StatusCode::INTERNAL_SERVER_ERROR, err.to_string())`.
* `main` — builds the pool with `connection_timeout(Duration::from_secs(5))`
  and a `Router` with `.route("/", post(put_logs))`.

We embed these shallowly: raw JSON values are opaque strings, the
`BTreeMap` iteration is a strictly-key-sorted association list (with the
`BTreeMap`-insert semantics used when serde decodes a JSON object), and
the effectful parts of the handler (pool acquisition, the thrift `put`)
are parameters recording their outcome, with the handler additionally
returning the ordered trace of the steps it performed.
-/

/-- The raw serialized bytes of one JSON value (`RawValue::get` in the
source): opaque at this layer, never deserialized. -/
abbrev RawJson := String

/-- One decoded log record as iterated by the handler: the entries of a
`BTreeMap<String, Box<RawValue>>` in ascending key order. We use a plain
association list; theorems about decoding (`decodeRecord`) establish the
sortedness and key-uniqueness that `BTreeMap` guarantees. -/
abbrev Record := List (String × RawJson)

/-- `BTreeMap::insert` on the sorted-association-list model: inserts
`(k, v)` keeping keys strictly ascending, replacing the value when the key
is already present (serde's map visitor inserts each JSON-object entry in
document order, so a repeated field name keeps the last occurrence). -/
def btreeInsert (k : String) (v : RawJson) : Record → Record
  | [] => [(k, v)]
  | (k', v') :: rest =>
    if k < k' then (k, v) :: (k', v') :: rest
    else if k = k' then (k, v) :: rest
    else (k', v') :: btreeInsert k v rest

/-- Decoding one JSON object into the `BTreeMap<String, Box<RawValue>>` of
`type Logs`: the object's `(name, raw value)` entries, in document order,
are inserted one by one into an initially empty map. -/
def decodeRecord (fields : List (String × RawJson)) : Record :=
  fields.foldl (fun m kv => btreeInsert kv.1 kv.2 m) []

/-- One HBase thrift `Mutation` as assembled by the handler's
`MutationBuilder`: the source sets `mb.column(config.column_family.clone(), k)`
and `mb.value(v.get())`; the builder's remaining fields (`is_delete`,
`write_to_wal`) keep their constant defaults and are omitted. -/
structure Mutation where
  family : String
  qualifier : String
  value : RawJson
deriving Repr, DecidableEq

/-- One HBase thrift `BatchMutation` as assembled by `BatchMutationBuilder`:
the source never sets a row key (`row` stays at the builder's `None`
default) and pushes one `Mutation` per record field. -/
structure BatchMutation where
  row : Option String := none
  mutations : List Mutation
deriving Repr, DecidableEq

/-- The inner loop of `put_logs` for one record: for each `(k, v)` in the
`BTreeMap`, in iteration order, one mutation with the configured column
family, qualifier `k` and value `v.get()`. -/
def translateRecord (cf : String) (log : Record) : BatchMutation :=
  { row := none
    mutations := log.map (fun kv => { family := cf, qualifier := kv.1, value := kv.2 }) }

/-- The outer loop of `put_logs`: `row_batches` starts empty and one
`BatchMutation` is pushed per record, in input order. -/
def buildRowBatches (cf : String) (logs : List Record) : List BatchMutation :=
  logs.map (translateRecord cf)

/-- The `Config` extension passed to the handler. -/
structure Config where
  column_family : String
  table_name : String
deriving Repr, DecidableEq

/-- The command-line surface (`struct Cli`), with the defaults declared in
its `clap` attributes. Every field is overridable by flag or environment. -/
structure Cli where
  hbase_addr : String := "localhost:9090"
  table_name : String := "logs"
  column_family : String := "data"
  listen_route : String := "/"
  listen_addr : String := "0.0.0.0:3000"
deriving Repr, DecidableEq

/-- The pool's connection-acquisition timeout set in `main`:
`Duration::from_secs(5)`. -/
def pool_connection_timeout_secs : Nat := 5

inductive Method where
  | post
deriving Repr, DecidableEq

/-- The routes registered by `main`'s `Router`: the source writes
`.route("/", post(put_logs))` with the literal path `"/"`; no field of
`cli` is consulted when registering the route. -/
def app_routes (_cli : Cli) : List (Method × String) :=
  [(Method.post, "/")]

/-- HTTP status codes, as numbers. -/
abbrev StatusCode := Nat

def StatusCode.CREATED : StatusCode := 201

def StatusCode.INTERNAL_SERVER_ERROR : StatusCode := 500

/-- `internal_error`: maps any error to
`(StatusCode::INTERNAL_SERVER_ERROR, err.to_string())`. Errors are
embedded as their human-readable descriptions. -/
def internal_error (err : String) : StatusCode × String :=
  (StatusCode.INTERNAL_SERVER_ERROR, err)

/-- The outcomes of the handler's two effectful calls, fixed by the
environment of one invocation: `pool.get().await` and
`conn.put(&config.table_name, row_batches, None, None)`. A failure carries
the error's description (`err.to_string()`). -/
structure Backend where
  poolGet : Except String Unit
  putResult : Except String Unit
deriving Repr

/-- One observable step of a `put_logs` invocation, in execution order. -/
inductive Step where
  | acquireConn
  | buildBatches (row_batches : List BatchMutation)
  | putCall (table : String) (row_batches : List BatchMutation)
deriving Repr, DecidableEq

def Step.isPutCall : Step → Bool
  | .putCall _ _ => true
  | _ => false

/-- The `put_logs` handler. Mirrors the source statement by statement:
`pool.get()` first (mapping failure through `internal_error`), then the
row-batch building loop, then `conn.put(...)` (again through
`internal_error`), then `Ok(StatusCode::CREATED)`. Returns the HTTP-level
result together with the ordered trace of steps performed. -/
def put_logs (backend : Backend) (config : Config) (logs : List Record) :
    Except (StatusCode × String) StatusCode × List Step :=
  match backend.poolGet with
  | .error e => (.error (internal_error e), [.acquireConn])
  | .ok _ =>
    let row_batches := buildRowBatches config.column_family logs
    match backend.putResult with
    | .error e =>
        (.error (internal_error e),
         [.acquireConn, .buildBatches row_batches, .putCall config.table_name row_batches])
    | .ok _ =>
        (.ok StatusCode.CREATED,
         [.acquireConn, .buildBatches row_batches, .putCall config.table_name row_batches])

/-- The put calls issued during one invocation's trace. -/
def putCallsOf (tr : List Step) : List Step :=
  tr.filter Step.isPutCall

/-- Evaluation helper: settle a concrete `String` comparison by deciding
the underlying character-list order (the kernel cannot reduce the
iterator-based `String.ltb`). -/
theorem string_lt_of_toList_lt {a b : String} (h : a.toList < b.toList) : a < b :=
  String.lt_iff_toList_lt.mpr h

/-- Evaluation helper, negative direction. -/
theorem string_not_lt_of_not_toList_lt {a b : String} (h : ¬ a.toList < b.toList) : ¬ a < b :=
  fun hl => h (String.lt_iff_toList_lt.mp hl)

/-- The trace of a `put_logs` invocation whose connection acquisition
succeeded: acquire, then build, then put, the put carrying the table name
and the row batches just built. Shared by several claim proofs. -/
theorem put_logs_snd_of_poolGet_ok {backend : Backend} (config : Config)
    (logs : List Record) (h : backend.poolGet = .ok ()) :
    (put_logs backend config logs).snd =
      [Step.acquireConn,
       Step.buildBatches (buildRowBatches config.column_family logs),
       Step.putCall config.table_name (buildRowBatches config.column_family logs)] := by
  unfold put_logs
  rw [h]
  cases hput : backend.putResult <;> simp

/-- The HTTP-level result of `put_logs` does not depend on the batch
contents, only on the two backend outcomes. -/
theorem put_logs_fst_independent_of_logs (backend : Backend) (config : Config)
    (logs : List Record) :
    (put_logs backend config logs).fst = (put_logs backend config []).fst := by
  unfold put_logs
  cases backend.poolGet <;> cases hput : backend.putResult <;> simp

theorem mem_btreeInsert {x : String × RawJson} {k : String} {v : RawJson}
    {l : Record} (hmem : x ∈ btreeInsert k v l) : x = (k, v) ∨ x ∈ l := by
  induction l with
  | nil => simpa [btreeInsert] using hmem
  | cons kv rest ih =>
      unfold btreeInsert at hmem
      by_cases h1 : k < kv.1
      · rw [if_pos h1] at hmem
        rcases List.mem_cons.mp hmem with h | h
        · exact .inl h
        · exact .inr h
      · rw [if_neg h1] at hmem
        by_cases h2 : k = kv.1
        · rw [if_pos h2] at hmem
          rcases List.mem_cons.mp hmem with h | h
          · exact .inl h
          · exact .inr (List.mem_cons_of_mem _ h)
        · rw [if_neg h2] at hmem
          rcases List.mem_cons.mp hmem with h | h
          · exact .inr (h ▸ List.mem_cons_self _ _)
          · rcases ih h with h | h
            · exact .inl h
            · exact .inr (List.mem_cons_of_mem _ h)

/-- `btreeInsert` preserves the strict ascending-key invariant of the
sorted-association-list model of `BTreeMap`. -/
theorem btreeInsert_pairwise {k : String} {v : RawJson} {l : Record}
    (hl : l.Pairwise (fun a b => a.1 < b.1)) :
    (btreeInsert k v l).Pairwise (fun a b => a.1 < b.1) := by
  induction l with
  | nil => simp [btreeInsert]
  | cons kv rest ih =>
      rcases List.pairwise_cons.mp hl with ⟨hk', hrest⟩
      unfold btreeInsert
      by_cases h1 : k < kv.1
      · rw [if_pos h1]
        refine List.pairwise_cons.mpr ⟨?_, hl⟩
        intro y hy
        rcases List.mem_cons.mp hy with hy | hy
        · exact hy ▸ h1
        · exact lt_trans h1 (hk' y hy)
      · rw [if_neg h1]
        by_cases h2 : k = kv.1
        · rw [if_pos h2]
          refine List.pairwise_cons.mpr ⟨?_, hrest⟩
          intro y hy
          exact h2 ▸ hk' y hy
        · rw [if_neg h2]
          have hk'k : kv.1 < k := by
            rcases lt_trichotomy k kv.1 with h3 | h3 | h3
            · exact absurd h3 h1
            · exact absurd h3 h2
            · exact h3
          refine List.pairwise_cons.mpr ⟨?_, ih hrest⟩
          intro y hy
          rcases mem_btreeInsert hy with hy | hy
          · exact hy ▸ hk'k
          · exact hk' y hy

/-- Folding `btreeInsert` over any entry list preserves the invariant. -/
theorem foldl_btreeInsert_pairwise (fields : List (String × RawJson)) :
    ∀ (init : Record), init.Pairwise (fun a b => a.1 < b.1) →
      (fields.foldl (fun m kv => btreeInsert kv.1 kv.2 m) init).Pairwise
        (fun a b => a.1 < b.1) := by
  induction fields with
  | nil => intro init h; simpa using h
  | cons kv rest ih =>
      intro init h
      exact ih (btreeInsert kv.1 kv.2 init) (btreeInsert_pairwise h)

/-- Decoding a JSON object always yields a record with strictly ascending
keys, as `BTreeMap` guarantees. -/
theorem decodeRecord_pairwise (fields : List (String × RawJson)) :
    (decodeRecord fields).Pairwise (fun a b => a.1 < b.1) :=
  foldl_btreeInsert_pairwise fields [] (by simp)

/-- Concrete decode used by several claims: a body whose fields appear in
the order `b, a, b` decodes to the two entries `a, b`, keeping the last
value bound to the repeated name `b`. -/
theorem decodeRecord_bab :
    decodeRecord [("b", "1"), ("a", "2"), ("b", "3")] = [("a", "2"), ("b", "3")] := by
  have hab : ("a" : String) < "b" := string_lt_of_toList_lt (by decide)
  have hba : ¬ ("b" : String) < "a" := string_not_lt_of_not_toList_lt (by decide)
  have hbb : ¬ ("b" : String) < "b" := string_not_lt_of_not_toList_lt (by decide)
  simp [decodeRecord, btreeInsert, hab, hba, hbb]

/-! ## Claim theorems -/

/-- C1: for every LogBatch, the handler's batch-building loop produces
exactly one row-write entry (`BatchMutation`) per input record, in input
order, and every mutation of every entry carries the configured column
family; entries are in 1:1 positional correspondence with the records, so
two records with identical content yield two distinct entries (lengths are
preserved, nothing is merged or deduplicated). -/
theorem c1_one_row_entry_per_record (cf : String) (logs : List Record) :
    (buildRowBatches cf logs).length = logs.length ∧
    (∀ i : Nat, (buildRowBatches cf logs).get? i = (logs.get? i).map (translateRecord cf)) ∧
    (∀ bm ∈ buildRowBatches cf logs, ∀ m ∈ bm.mutations, m.family = cf) := by
  refine ⟨by simp [buildRowBatches], fun i => by simp [buildRowBatches], ?_⟩
  intro bm hbm m hm
  rcases List.mem_map.mp hbm with ⟨log, _, rfl⟩
  rcases List.mem_map.mp hm with ⟨kv, _, rfl⟩
  rfl

theorem c1_one_row_entry_per_record_witness :
    (buildRowBatches "data" [[("k", "1")], [("k", "1")]]).length = 2 ∧
    (buildRowBatches "data" [[("k", "1")], [("k", "1")]]).get? 1 =
      some ⟨none, [⟨"data", "k", "1"⟩]⟩ ∧
    Mutation.family ⟨"data", "k", "1"⟩ = "data" := by
  have h := c1_one_row_entry_per_record "data" [[("k", "1")], [("k", "1")]]
  refine ⟨by simpa using h.1, by simpa using h.2.1 1, ?_⟩
  exact h.2.2 ⟨none, [⟨"data", "k", "1"⟩]⟩ (by simp [buildRowBatches, translateRecord])
    ⟨"data", "k", "1"⟩ (by simp [translateRecord])

/-- C2: translating a record produces exactly one `ColumnMutation` per
(field name, value) pair — family is the configured column family,
qualifier is the field name, and the value is the raw serialized JSON
bytes passed through uninterpreted — and for the decoded record
`{"level": "info", "msg": "hello"}` with column family `data` the result
is exactly the two mutations `(data, level, raw "info")` and
`(data, msg, raw "hello")`. -/
theorem c2_one_mutation_per_field_passthrough :
    (∀ (cf : String) (log : Record),
      (translateRecord cf log).mutations =
        log.map (fun kv => ⟨cf, kv.1, kv.2⟩)) ∧
    translateRecord "data" (decodeRecord [("level", "\x22info\x22"), ("msg", "\x22hello\x22")]) =
      ⟨none, [⟨"data", "level", "\x22info\x22"⟩, ⟨"data", "msg", "\x22hello\x22"⟩]⟩ := by
  refine ⟨fun cf log => rfl, ?_⟩
  have hml : ¬ ("msg" : String) < "level" := string_not_lt_of_not_toList_lt (by decide)
  simp [decodeRecord, btreeInsert, translateRecord, hml]

/-- C3: for the empty LogBatch the handler still issues the backend `put`
call, with an empty row-batch list, and when both backend calls succeed it
returns HTTP 201 (Created). -/
theorem c3_empty_batch_still_puts (backend : Backend) (config : Config)
    (hget : backend.poolGet = .ok ()) (hput : backend.putResult = .ok ()) :
    put_logs backend config [] =
      (.ok StatusCode.CREATED,
       [Step.acquireConn, Step.buildBatches [], Step.putCall config.table_name []]) ∧
    Step.putCall config.table_name [] ∈ (put_logs backend config []).snd := by
  unfold put_logs
  rw [hget, hput]
  simp [buildRowBatches]

theorem c3_empty_batch_still_puts_witness :
    put_logs ⟨.ok (), .ok ()⟩ ⟨"data", "logs"⟩ [] =
      (.ok StatusCode.CREATED,
       [Step.acquireConn, Step.buildBatches [], Step.putCall "logs" []]) :=
  (c3_empty_batch_still_puts ⟨.ok (), .ok ()⟩ ⟨"data", "logs"⟩ rfl rfl).1

/-- C4 counterexample: the claim says no connection is acquired before
translation and batch building are complete, but on the concrete batch
`[[("a", "1")]]` (with both backend calls succeeding) the trace places
`acquireConn` at index 0 and the batch-building step at index 1, so the
required ordering (every build index below every acquire index) is false. -/
theorem c4_counterexample :
    (put_logs ⟨.ok (), .ok ()⟩ ⟨"data", "logs"⟩ [[("a", "1")]]).snd.get? 0 =
        some Step.acquireConn ∧
    (put_logs ⟨.ok (), .ok ()⟩ ⟨"data", "logs"⟩ [[("a", "1")]]).snd.get? 1 =
        some (Step.buildBatches [⟨none, [⟨"data", "a", "1"⟩]⟩]) ∧
    ¬ (∀ i j : Nat,
        (put_logs ⟨.ok (), .ok ()⟩ ⟨"data", "logs"⟩ [[("a", "1")]]).snd.get? i =
            some Step.acquireConn →
        (∃ rb, (put_logs ⟨.ok (), .ok ()⟩ ⟨"data", "logs"⟩ [[("a", "1")]]).snd.get? j =
            some (Step.buildBatches rb)) →
        j < i) := by
  refine ⟨rfl, rfl, ?_⟩
  intro h
  have h01 := h 0 1 rfl ⟨[⟨none, [⟨"data", "a", "1"⟩]⟩], rfl⟩
  omega

/-- C4 amended: whenever connection acquisition succeeds, the handler's
trace is exactly: acquire the pooled connection first, then translate all
records and build the full write batch, then issue the single `put` call
carrying the configured table name and the built batch. -/
theorem c4_amended_acquire_then_build_then_put (backend : Backend) (config : Config)
    (logs : List Record) (hget : backend.poolGet = .ok ()) :
    (put_logs backend config logs).snd =
      [Step.acquireConn,
       Step.buildBatches (buildRowBatches config.column_family logs),
       Step.putCall config.table_name (buildRowBatches config.column_family logs)] :=
  put_logs_snd_of_poolGet_ok config logs hget

theorem c4_amended_acquire_then_build_then_put_witness :
    (put_logs ⟨.ok (), .ok ()⟩ ⟨"data", "logs"⟩ [[("a", "1")]]).snd =
      [Step.acquireConn,
       Step.buildBatches [⟨none, [⟨"data", "a", "1"⟩]⟩],
       Step.putCall "logs" [⟨none, [⟨"data", "a", "1"⟩]⟩]] :=
  c4_amended_acquire_then_build_then_put ⟨.ok (), .ok ()⟩ ⟨"data", "logs"⟩
    [[("a", "1")]] rfl

/-- C5 counterexample: the claim says a record containing an empty field
name signals an `InvalidRecord` error and the handler aborts, but on the
concrete record with the single field `("", raw "v")` translation
succeeds — producing a mutation with an empty qualifier — and the handler
returns 201 (no abort; the source has no empty-name guard and no
translation error channel at all). -/
theorem c5_counterexample :
    (put_logs ⟨.ok (), .ok ()⟩ ⟨"data", "logs"⟩ [[("", "\x22v\x22")]]).fst =
        .ok StatusCode.CREATED ∧
    (translateRecord "data" [("", "\x22v\x22")]).mutations = [⟨"data", "", "\x22v\x22"⟩] :=
  ⟨rfl, rfl⟩

/-- C5 amended: translation is deterministic, pure and total, with no
failure modes at all — it yields exactly one mutation per field whatever
the field names are (an empty field name is silently accepted), and the
handler's HTTP result never depends on the batch contents, so it never
aborts on any record. -/
theorem c5_amended_translation_total (cf : String) (log : Record)
    (backend : Backend) (config : Config) (logs : List Record) :
    (translateRecord cf log).mutations.length = log.length ∧
    (put_logs backend config logs).fst = (put_logs backend config []).fst :=
  ⟨by simp [translateRecord], put_logs_fst_independent_of_logs backend config logs⟩

/-- C6: the handler has exactly two HTTP outcomes — 201 Created when both
the pool acquisition and the backend write succeed, and 500 with the
underlying error's description as body on any failure (acquisition or
write alike); no other status is ever produced. -/
theorem c6_two_outcomes (backend : Backend) (config : Config) (logs : List Record) :
    ((put_logs backend config logs).fst = .ok StatusCode.CREATED ∧
       backend.poolGet = .ok () ∧ backend.putResult = .ok ()) ∨
    (∃ e, (put_logs backend config logs).fst =
        .error (StatusCode.INTERNAL_SERVER_ERROR, e) ∧
      (backend.poolGet = .error e ∨ backend.putResult = .error e)) := by
  unfold put_logs
  cases hget : backend.poolGet with
  | error e => exact .inr ⟨e, rfl, .inl rfl⟩
  | ok u =>
      cases hput : backend.putResult with
      | error e => exact .inr ⟨e, rfl, .inr rfl⟩
      | ok w => exact .inl ⟨rfl, by cases u; rfl, by cases w; rfl⟩

/-- C7: the pool's connection-acquisition timeout is the fixed 5 seconds
set in `main`, and an acquisition failure (such as a timeout) is surfaced
by the handler as a 500 response carrying the error's description — the
invocation terminates with that response rather than proceeding. -/
theorem c7_timeout_five_seconds_surfaced (config : Config) (logs : List Record)
    (e : String) (pr : Except String Unit) :
    pool_connection_timeout_secs = 5 ∧
    put_logs ⟨.error e, pr⟩ config logs =
      (.error (StatusCode.INTERNAL_SERVER_ERROR, e), [Step.acquireConn]) :=
  ⟨rfl, rfl⟩

/-- C8: the `listen_route` configuration is documented as "the path where
the endpoint will be enabled", yet the router always registers the single
POST handler at the literal path `/`; with `listen_route := "/logs"` the
registered routes are still `[(POST, "/")]` and `/logs` is not among
them — the flag is parsed but never read. -/
theorem c8_listen_route_ignored :
    (∀ cli : Cli, app_routes cli = [(Method.post, "/")]) ∧
    Cli.listen_route { listen_route := "/logs" } = "/logs" ∧
    app_routes { listen_route := "/logs" } = [(Method.post, "/")] ∧
    "/logs" ∉ (app_routes { listen_route := "/logs" }).map Prod.snd :=
  ⟨fun _ => rfl, rfl, rfl, by simp [app_routes]⟩

/-- C9: processing deduplicates nothing and is not idempotent-by-merging:
any invocation whose acquisition succeeds issues exactly one `put` call
whose row batches are a pure function of the input batch, so two
invocations on the same batch issue identical, independent put calls; and
a batch holding the same record twice builds two identical but distinct
row-write entries. -/
theorem c9_no_dedup_two_submissions (b1 b2 : Backend) (config : Config)
    (logs : List Record) (h1 : b1.poolGet = .ok ()) (h2 : b2.poolGet = .ok ()) :
    putCallsOf (put_logs b1 config logs).snd =
      [Step.putCall config.table_name (buildRowBatches config.column_family logs)] ∧
    putCallsOf (put_logs b1 config logs).snd = putCallsOf (put_logs b2 config logs).snd ∧
    (∀ r : Record, buildRowBatches config.column_family [r, r] =
      [translateRecord config.column_family r, translateRecord config.column_family r]) := by
  have t1 := put_logs_snd_of_poolGet_ok config logs h1
  have t2 := put_logs_snd_of_poolGet_ok config logs h2
  refine ⟨?_, ?_, fun r => rfl⟩
  · rw [t1]; rfl
  · rw [t1, t2]

theorem c9_no_dedup_two_submissions_witness :
    putCallsOf (put_logs ⟨.ok (), .ok ()⟩ ⟨"data", "logs"⟩ [[("k", "1")], [("k", "1")]]).snd =
      [Step.putCall "logs" [⟨none, [⟨"data", "k", "1"⟩]⟩, ⟨none, [⟨"data", "k", "1"⟩]⟩]] :=
  (c9_no_dedup_two_submissions ⟨.ok (), .ok ()⟩ ⟨.ok (), .ok ()⟩ ⟨"data", "logs"⟩
    [[("k", "1")], [("k", "1")]] rfl rfl).1

/-- C10: because each record decodes into a `BTreeMap` keyed by field
name, the mutations of a record's row-write entry are emitted in strictly
ascending lexicographic qualifier order — hence with no duplicate
qualifier — regardless of the order the fields appear in the body; on the
concrete body whose fields appear as `b, a, b`, decoding keeps one entry
per distinct name (the last value winning) and the emitted qualifiers are
`a` then `b`, not the body order. -/
theorem c10_btreemap_order_and_dedup (cf : String) (fields : List (String × RawJson)) :
    ((translateRecord cf (decodeRecord fields)).mutations.map Mutation.qualifier).Pairwise
      (· < ·) ∧
    ((translateRecord cf (decodeRecord fields)).mutations.map Mutation.qualifier).Nodup ∧
    decodeRecord [("b", "1"), ("a", "2"), ("b", "3")] = [("a", "2"), ("b", "3")] ∧
    ((translateRecord "data"
        (decodeRecord [("b", "1"), ("a", "2"), ("b", "3")])).mutations.map
      Mutation.qualifier) = ["a", "b"] := by
  have hsorted : ((translateRecord cf (decodeRecord fields)).mutations.map
      Mutation.qualifier).Pairwise (· < ·) := by
    have h := decodeRecord_pairwise fields
    simp only [translateRecord, List.map_map]
    exact List.pairwise_map.mpr h
  refine ⟨hsorted, hsorted.imp ne_of_lt, decodeRecord_bab, ?_⟩
  rw [decodeRecord_bab]
  rfl
